import Mathlib

/-!
Shallow embedding of `src/main.py` (Simple Splitwise API).

Modelling conventions:
* Python `float` amounts are modelled as `ℚ` (the program only adds,
  subtracts and divides by participant counts, so the rational model is the
  exact-arithmetic reading of the float code; "within floating-point epsilon"
  claims become exact equalities here).
* Python `dict` (insertion ordered) is modelled as an association list
  `List (Nat × α)`; inserting a fresh key appends, updating an existing key
  rewrites the first matching entry in place, exactly like CPython dicts.
* A Python `KeyError` on `balances[k] += v` is modelled by `Option`:
  `creditPayer` returns `none` when the key is absent.
* `datetime` values created by `datetime.now(timezone.utc)` are modelled by a
  `DateTime` record of calendar fields with an implicit `+00:00` offset;
  `isoformat` / `fromisoformat` are modelled concretely on character lists.
* Raising an `HTTPException` is modelled with an `ApiError` sum; a handler
  that raises before mutating returns the input state unchanged.
-/

namespace Splitwise

/-- A user record, Python dict `{"id": ..., "name": ...}` (src/main.py:169). -/
structure UserRec where
  id : Nat
  name : String
deriving DecidableEq

/-- Calendar fields of an aware UTC `datetime` (offset is always `+00:00`,
as produced by `datetime.now(timezone.utc)` in src/main.py:216). -/
structure DateTime where
  year : Nat
  month : Nat
  day : Nat
  hour : Nat
  minute : Nat
  second : Nat
  microsecond : Nat
deriving DecidableEq

/-- The in-memory `created_at` field: a parsed `datetime`, or the raw string
left in place when `datetime.fromisoformat` fails (src/main.py:91-93). -/
inductive TimeVal where
  | dt (d : DateTime) : TimeVal
  | raw (s : String) : TimeVal
deriving DecidableEq

/-- An in-memory expense record (the dict built in src/main.py:214-218). -/
structure Expense where
  description : String
  amount : ℚ
  paid_by_user_id : Nat
  participants : List Nat
  id : Nat
  created_at : TimeVal
deriving DecidableEq

/-- The module-level mutable state of src/main.py:23-26. -/
structure LedgerState where
  db_users : List (Nat × UserRec)
  db_expenses : List Expense
  next_user_id : Nat
  next_expense_id : Nat
deriving DecidableEq

/-- The initial state of the module globals (src/main.py:23-26). -/
def initialState : LedgerState :=
  { db_users := [], db_expenses := [], next_user_id := 1, next_expense_id := 1 }

/-- Errors surfaced by the endpoints: pydantic request validation (HTTP 422),
`get_user_or_404` (HTTP 404, src/main.py:137-144), and the explicit 400 in
`create_expense` (src/main.py:208-212). -/
inductive ApiError where
  | validationError : ApiError
  | notFound (userId : Nat) : ApiError
  | badRequest (msg : String) : ApiError
deriving DecidableEq

/-! ### Association-list model of Python dicts -/

/-- The keys of a dict. -/
def dictKeys (l : List (Nat × α)) : List Nat := l.map Prod.fst

/-- `k in d` for a Python dict. -/
def containsKey (l : List (Nat × α)) (k : Nat) : Bool := (dictKeys l).contains k

/-- `d.get(k)`: first entry with key `k`, if any. -/
def dictGet : List (Nat × α) → Nat → Option α
  | [], _ => none
  | (k', v) :: rest, k => if k' = k then some v else dictGet rest k

/-- `d[k] = v`: rewrite the first entry with key `k` in place, else append
(CPython dict insertion-order semantics). -/
def dictInsert : List (Nat × α) → Nat → α → List (Nat × α)
  | [], k, v => [(k, v)]
  | (k', v') :: rest, k, v =>
    if k' = k then (k, v) :: rest else (k', v') :: dictInsert rest k v

/-- `d[k] += v` on an existing key: add to the first entry with key `k`;
on a missing key this is the identity (callers guard for `KeyError`). -/
def addToKey : List (Nat × ℚ) → Nat → ℚ → List (Nat × ℚ)
  | [], _, _ => []
  | (k', v') :: rest, k, v =>
    if k' = k then (k', v' + v) :: rest else (k', v') :: addToKey rest k v

/-! ### Balance calculator (src/main.py:251-297) -/

/-- Round-half-to-even to an integer, the behaviour of Python `round` at an
exact tie. -/
def roundHalfEven (q : ℚ) : ℤ :=
  let f := ⌊q⌋
  let r := q - f
  if r < 1/2 then f
  else if r > 1/2 then f + 1
  else if f % 2 = 0 then f else f + 1

/-- `round(x, 2)` (src/main.py:294) in the exact-rational model. -/
def round2 (q : ℚ) : ℚ := (roundHalfEven (q * 100) : ℚ) / 100

/-- `balances[paid_by_user_id] += amount` (src/main.py:276): unguarded, so a
missing key is a `KeyError`, modelled as `none`. -/
def creditPayer (bal : List (Nat × ℚ)) (k : Nat) (amt : ℚ) :
    Option (List (Nat × ℚ)) :=
  if containsKey bal k then some (addToKey bal k amt) else none

/-- The guarded debit of one participant slot (src/main.py:279-284):
`if participant_id in balances: balances[participant_id] -= share`. -/
def debitParticipant (bal : List (Nat × ℚ)) (k : Nat) (share : ℚ) :
    List (Nat × ℚ) :=
  if containsKey bal k then addToKey bal k (-share) else bal

/-- The body of the expense loop in `get_balances` (src/main.py:263-284):
skip an expense with no participants, credit the payer the full amount
(KeyError, i.e. `none`, if the payer is not a key), then debit each
participant slot `amount / len(participants)` without deduplication. -/
def processExpense (bal : List (Nat × ℚ)) (e : Expense) :
    Option (List (Nat × ℚ)) :=
  if e.participants = [] then some bal
  else
    let share := e.amount / (e.participants.length : ℚ)
    (creditPayer bal e.paid_by_user_id e.amount).map fun bal1 =>
      e.participants.foldl (fun b p => debitParticipant b p share) bal1

/-- The balances dict after the expense loop of `get_balances`
(src/main.py:261-284), starting from `{user_id: 0.0 for user_id in db_users}`. -/
def computeBalances (s : LedgerState) : Option (List (Nat × ℚ)) :=
  s.db_expenses.foldl (fun ob e => ob.bind fun b => processExpense b e)
    (some (s.db_users.map fun u => (u.1, (0 : ℚ))))

/-! ### ISO-8601 timestamps (`datetime.isoformat`/`fromisoformat`)

`isoformat` on an aware UTC `datetime` produces
`YYYY-MM-DDTHH:MM:SS[.ffffff]+00:00` (the microsecond part is omitted when it
is zero).  `fromisoformat` parses that format back; we model the fragment of
`fromisoformat` reachable from strings `isoformat` produces, with the same
calendar-validity checks the `datetime` constructor performs. -/

/-- The character for a decimal digit. -/
def digitChar (d : Nat) : Char := Char.ofNat (48 + d)

/-- The numeric value of a decimal digit character. -/
def charVal (c : Char) : Nat := c.toNat - 48

/-- Decimal digit characters of `n`, most significant first (empty for 0). -/
def natChars (n : Nat) : List Char := ((Nat.digits 10 n).reverse).map digitChar

/-- Read a most-significant-first digit string. -/
def digitsToNat (cs : List Char) : Nat := cs.foldl (fun a c => a * 10 + charVal c) 0

/-- `n` printed zero-padded to width `w` (Python `%0wd` for `n < 10^w`). -/
def padNat (w n : Nat) : List Char :=
  List.replicate (w - (natChars n).length) '0' ++ natChars n

/-- Python `str(n)` for a nonnegative int (used by `json.dump` on int keys). -/
def natToString (n : Nat) : String :=
  if n = 0 then "0" else String.mk (natChars n)

/-- Python `int(k)` (src/main.py:78), restricted to the plain-decimal strings
`str` produces; other strings raise, modelled as `none`. -/
def parseNatStr (s : String) : Option Nat :=
  if !s.data.isEmpty && s.data.all Char.isDigit then some (digitsToNat s.data)
  else none

/-- Read exactly `w` decimal digits from the front of a character stream. -/
def readDigits (w : Nat) (cs : List Char) : Option (Nat × List Char) :=
  if (cs.take w).length = w ∧ (cs.take w).all Char.isDigit = true then
    some (digitsToNat (cs.take w), cs.drop w)
  else none

/-- Consume one expected character. -/
def expectChar (c : Char) : List Char → Option (List Char)
  | [] => none
  | c' :: rest => if c' = c then some rest else none

/-- Gregorian leap year, as implemented by `datetime`. -/
def isLeapYear (y : Nat) : Bool :=
  y % 4 = 0 && (y % 100 != 0 || y % 400 = 0)

/-- Days in a month, as validated by the `datetime` constructor. -/
def daysInMonth (y m : Nat) : Nat :=
  if m = 2 then (if isLeapYear y then 29 else 28)
  else if m = 4 ∨ m = 6 ∨ m = 9 ∨ m = 11 then 30
  else 31

/-- The field ranges a Python `datetime` value always satisfies. -/
def ValidDT (d : DateTime) : Prop :=
  1 ≤ d.year ∧ d.year ≤ 9999 ∧ 1 ≤ d.month ∧ d.month ≤ 12 ∧
  1 ≤ d.day ∧ d.day ≤ daysInMonth d.year d.month ∧
  d.hour ≤ 23 ∧ d.minute ≤ 59 ∧ d.second ≤ 59 ∧ d.microsecond ≤ 999999

instance (d : DateTime) : Decidable (ValidDT d) := by
  unfold ValidDT
  infer_instance

/-- `datetime.isoformat` of an aware UTC datetime, as a character list. -/
def isoChars (d : DateTime) : List Char :=
  padNat 4 d.year ++ '-' :: padNat 2 d.month ++ '-' :: padNat 2 d.day ++
  'T' :: padNat 2 d.hour ++ ':' :: padNat 2 d.minute ++ ':' :: padNat 2 d.second ++
  (if d.microsecond = 0 then [] else '.' :: padNat 6 d.microsecond) ++
  ['+', '0', '0', ':', '0', '0']

/-- `datetime.isoformat` (src/main.py:116). -/
def isoformat (d : DateTime) : String := String.mk (isoChars d)

/-- The optional fractional-second field of the ISO format: `.ffffff` when
the microsecond is nonzero, absent when it is zero. -/
def parseUS (cs : List Char) : Option (Nat × List Char) :=
  match cs with
  | '.' :: rest => readDigits 6 rest
  | _ => some (0, cs)

/-- The trailing `+00:00` UTC offset of the ISO format, then the range checks
the `datetime` constructor performs. -/
def checkTail (y mo dy h mi sec us : Nat) (cs : List Char) : Option DateTime :=
  (expectChar '+' cs).bind fun cs =>
  (expectChar '0' cs).bind fun cs =>
  (expectChar '0' cs).bind fun cs =>
  (expectChar ':' cs).bind fun cs =>
  (expectChar '0' cs).bind fun cs =>
  (expectChar '0' cs).bind fun cs =>
  let d : DateTime := ⟨y, mo, dy, h, mi, sec, us⟩
  if cs = [] ∧ ValidDT d then some d else none

/-- `datetime.fromisoformat` (src/main.py:88, 239) on the canonical aware-UTC
format; `none` models the `ValueError`. -/
def parseIsoChars (cs : List Char) : Option DateTime :=
  (readDigits 4 cs).bind fun yc =>
  (expectChar '-' yc.2).bind fun cs =>
  (readDigits 2 cs).bind fun moc =>
  (expectChar '-' moc.2).bind fun cs =>
  (readDigits 2 cs).bind fun dyc =>
  (expectChar 'T' dyc.2).bind fun cs =>
  (readDigits 2 cs).bind fun hc =>
  (expectChar ':' hc.2).bind fun cs =>
  (readDigits 2 cs).bind fun mic =>
  (expectChar ':' mic.2).bind fun cs =>
  (readDigits 2 cs).bind fun sc =>
  (parseUS sc.2).bind fun usc =>
  checkTail yc.1 moc.1 dyc.1 hc.1 mic.1 sc.1 usc.1 usc.2

/-- `datetime.fromisoformat` on a string. -/
def fromisoformat (s : String) : Option DateTime := parseIsoChars s.data

/-- Python `s.replace("Z", "+00:00")` (src/main.py:89, 241): the pattern is a
single character, so the replacement acts independently on each character. -/
def replaceZ (cs : List Char) : List Char :=
  cs.flatMap fun c => if c = 'Z' then ['+', '0', '0', ':', '0', '0'] else [c]

/-- The `created_at` conversion applied on load and in `GET /expenses`
(src/main.py:84-93, 237-243): parse a raw string if possible, keep it raw on
`ValueError`; an already-parsed datetime is left alone. -/
def convertCreatedAt : TimeVal → TimeVal
  | .dt d => .dt d
  | .raw s =>
    match parseIsoChars (replaceZ s.data) with
    | some d => .dt d
    | none => .raw s

/-! ### Persistence (src/main.py:71-129)

We model the JSON file at the level of the already-decoded JSON value:
`json.dump`/`json.load` round-trip strings, numbers and arrays exactly, so the
modelled serialisation keeps fields other than dict keys (stringified by
`json.dump`, re-parsed by `int(k)`) and `created_at` (stringified by
`isoformat`, re-parsed by `fromisoformat`) unchanged. -/

/-- An expense as it sits in the JSON file: `created_at` is a string
(or whatever string was already there, see src/main.py:115). -/
structure StoredExpense where
  description : String
  amount : ℚ
  paid_by_user_id : Nat
  participants : List Nat
  id : Nat
  created_at : String
deriving DecidableEq

/-- The decoded contents of `splitwise_data.json` (src/main.py:119-124). -/
structure StoredState where
  users : List (String × UserRec)
  expenses : List StoredExpense
  next_user_id : Nat
  next_expense_id : Nat
deriving DecidableEq

/-- Serialise one expense (src/main.py:113-117): stringify `created_at` when
it is a datetime, leave a raw string as-is. -/
def storeExpense (e : Expense) : StoredExpense :=
  { description := e.description, amount := e.amount,
    paid_by_user_id := e.paid_by_user_id, participants := e.participants,
    id := e.id,
    created_at :=
      match e.created_at with
      | .dt d => isoformat d
      | .raw s => s }

/-- `save_data` (src/main.py:109-126): user-dict keys become strings under
`json.dump`; expenses get their `created_at` stringified; counters copied. -/
def save_data (s : LedgerState) : StoredState :=
  { users := s.db_users.map fun kv => (natToString kv.1, kv.2),
    expenses := s.db_expenses.map storeExpense,
    next_user_id := s.next_user_id,
    next_expense_id := s.next_expense_id }

/-- Deserialise one expense (src/main.py:83-94). -/
def loadExpense (e : StoredExpense) : Expense :=
  { description := e.description, amount := e.amount,
    paid_by_user_id := e.paid_by_user_id, participants := e.participants,
    id := e.id, created_at := convertCreatedAt (.raw e.created_at) }

/-- The dict comprehension `{int(k): v for k, v in data.get("users", {}).items()}`
(src/main.py:78): the first key `int` rejects raises, aborting the whole
comprehension. -/
def loadUsers : List (String × UserRec) → Option (List (Nat × UserRec))
  | [] => some []
  | kv :: rest =>
    match parseNatStr kv.1, loadUsers rest with
    | some n, some t => some ((n, kv.2) :: t)
    | _, _ => none

/-- `load_data` (src/main.py:71-104): keys re-parsed with `int(k)`,
`created_at` strings parsed back to datetimes when possible.  A raised
exception is caught by the outer `except` (src/main.py:101), so the whole
load aborts: modelled as `none`. -/
def load_data (st : StoredState) : Option LedgerState :=
  (loadUsers st.users).map fun users =>
    { db_users := users,
      db_expenses := st.expenses.map loadExpense,
      next_user_id := st.next_user_id,
      next_expense_id := st.next_expense_id }

/-! ### User endpoints (src/main.py:163-189) -/

/-- Pydantic validation of the `POST /users` body (src/main.py:30-35): `name`
is a required `str` with no further constraint, so any present string — the
empty string included — is accepted; only an absent field is a 422. -/
def validateUserCreate (name : Option String) : Except ApiError String :=
  match name with
  | none => .error .validationError
  | some n => .ok n

/-- The `create_user` handler body (src/main.py:164-173). -/
def create_user (name : String) (s : LedgerState) : UserRec × LedgerState :=
  let u : UserRec := { id := s.next_user_id, name := name }
  (u, { s with db_users := dictInsert s.db_users s.next_user_id u,
               next_user_id := s.next_user_id + 1 })

/-- `POST /users`: pydantic validation then the handler. -/
def postUser (name : Option String) (s : LedgerState) :
    Except ApiError UserRec × LedgerState :=
  match validateUserCreate name with
  | .error e => (.error e, s)
  | .ok n =>
    let r := create_user n s
    (.ok r.1, r.2)

/-- `get_user_or_404` (src/main.py:137-144), as the error it raises when the
lookup fails. -/
def get_user_or_404 (s : LedgerState) (userId : Nat) : Except ApiError UserRec :=
  match dictGet s.db_users userId with
  | none => .error (.notFound userId)
  | some u => .ok u

/-! ### Expense endpoints (src/main.py:193-247) -/

/-- The `POST /expenses` body after pydantic field typing
(src/main.py:42-48). -/
structure ExpenseCreate where
  description : String
  amount : ℚ
  paid_by_user_id : Nat
  participants : List Nat
deriving DecidableEq

/-- Pydantic validation of the `POST /expenses` body (src/main.py:42-48):
`amount` has `gt=0` and `participants` has `min_items=1`. -/
def validateExpenseCreate (e : ExpenseCreate) : Except ApiError ExpenseCreate :=
  if 0 < e.amount ∧ 1 ≤ e.participants.length then .ok e
  else .error .validationError

/-- The `create_expense` handler body (src/main.py:194-225): payer existence
first, then each participant in list order (first missing id raised), then
the (unreachable after pydantic) empty-participants check, then the mutation:
assign `next_expense_id`, stamp `created_at`, append, bump the counter. -/
def create_expense (e : ExpenseCreate) (now : DateTime) (s : LedgerState) :
    Except ApiError Expense × LedgerState :=
  if ¬ containsKey s.db_users e.paid_by_user_id then
    (.error (.notFound e.paid_by_user_id), s)
  else
    match e.participants.find? (fun p => ! containsKey s.db_users p) with
    | some p => (.error (.notFound p), s)
    | none =>
      if e.participants = [] then
        (.error (.badRequest "Expense must have at least one participant."), s)
      else
        let ne : Expense :=
          { description := e.description, amount := e.amount,
            paid_by_user_id := e.paid_by_user_id,
            participants := e.participants, id := s.next_expense_id,
            created_at := .dt now }
        (.ok ne, { s with db_expenses := s.db_expenses ++ [ne],
                          next_expense_id := s.next_expense_id + 1 })

/-- `POST /expenses`: pydantic validation then the handler. -/
def postExpense (e : ExpenseCreate) (now : DateTime) (s : LedgerState) :
    Except ApiError Expense × LedgerState :=
  match validateExpenseCreate e with
  | .error err => (.error err, s)
  | .ok e' => create_expense e' now s

/-- Re-validation of one expense against the pydantic `Expense` model when it
is returned from `GET /expenses` (src/main.py:244-246), after the
`created_at` string-to-datetime conversion of src/main.py:236-243; a record
the model rejects raises, modelled as `none`. -/
def respExpense (e : Expense) : Option Expense :=
  match convertCreatedAt e.created_at with
  | .raw _ => none
  | .dt d =>
    if 0 < e.amount ∧ 1 ≤ e.participants.length
    then some { e with created_at := .dt d } else none

/-- `GET /expenses` (src/main.py:229-247): the response loop, one converted
and re-validated record per stored expense, in ledger order; a validation
failure raises, aborting the whole response. -/
def get_expenses : List Expense → Option (List Expense)
  | [] => some []
  | e :: rest =>
    match respExpense e, get_expenses rest with
    | some r, some t => some (r :: t)
    | _, _ => none

/-- One row of the `/balances` response (src/main.py:60-63). -/
structure UserBalance where
  user_id : Nat
  name : String
  balance : ℚ
deriving DecidableEq

/-- `GET /balances` (src/main.py:252-297): empty list when there are no
users, otherwise the expense loop followed by the response loop
(src/main.py:286-297) which looks each key up in `db_users` again and rounds
to two decimals. `none` models an uncaught `KeyError` from the payer credit. -/
def get_balances (s : LedgerState) : Option (List UserBalance) :=
  if s.db_users.isEmpty then some []
  else
    (computeBalances s).map fun bal =>
      bal.filterMap fun kv =>
        (dictGet s.db_users kv.1).map fun u =>
          { user_id := kv.1, name := u.name, balance := round2 kv.2 }



/-! ### Concrete scenario states (spec §8 test scenarios) -/

/-- The duplicated-participant expense {amount: 30, paid_by: 1,
participants: [1,1,2]} of spec §8. -/
def dupExpense : Expense :=
  { description := "Dinner", amount := 30, paid_by_user_id := 1,
    participants := [1, 1, 2], id := 1, created_at := .raw "t" }

/-- Users Alice(1) and Bob(2) with the single duplicated-participant expense. -/
def dupState : LedgerState :=
  { db_users := [(1, ⟨1, "Alice"⟩), (2, ⟨2, "Bob"⟩)],
    db_expenses := [dupExpense],
    next_user_id := 3, next_expense_id := 2 }

/-- The same expense with the duplicate participant removed. -/
def dedupExpense : Expense :=
  { description := "Dinner", amount := 30, paid_by_user_id := 1,
    participants := [1, 2], id := 1, created_at := .raw "t" }

/-- The same ledger as `dupState` but with the deduplicated expense. -/
def dedupState : LedgerState :=
  { db_users := [(1, ⟨1, "Alice"⟩), (2, ⟨2, "Bob"⟩)],
    db_expenses := [dedupExpense],
    next_user_id := 3, next_expense_id := 2 }

/-- An expense in which only Alice participates, leaving Bob untouched. -/
def aliceOnlyExpense : Expense :=
  { description := "Solo", amount := 30, paid_by_user_id := 1,
    participants := [1], id := 1, created_at := .raw "t" }

/-- A ledger in which Bob is registered but occurs in no expense. -/
def bobIdleState : LedgerState :=
  { db_users := [(1, ⟨1, "Alice"⟩), (2, ⟨2, "Bob"⟩)],
    db_expenses := [aliceOnlyExpense],
    next_user_id := 3, next_expense_id := 2 }

/-- A fixed timestamp handed to `create_expense` as "now". -/
def someDT : DateTime := ⟨2025, 1, 1, 0, 0, 0, 0⟩

/-- An expense carrying a real parsed timestamp. -/
def rtExpense : Expense :=
  { description := "Dinner", amount := 30, paid_by_user_id := 1,
    participants := [1, 2], id := 1,
    created_at := .dt ⟨2025, 10, 12, 3, 4, 5, 6⟩ }

/-- A populated ledger whose expense timestamps are parsed datetimes. -/
def rtState : LedgerState :=
  { db_users := [(1, ⟨1, "Alice"⟩), (2, ⟨2, "Bob"⟩)],
    db_expenses := [rtExpense], next_user_id := 3, next_expense_id := 2 }

/-- The state produced by registering the empty-named user into the initial
state. -/
def c3SuccessState : LedgerState :=
  { db_users := [(1, ⟨1, ""⟩)], db_expenses := [], next_user_id := 2,
    next_expense_id := 1 }

/-! ## Lemmas: decimal digit strings -/

theorem charVal_digitChar {d : Nat} (h : d < 10) : charVal (digitChar d) = d := by
  interval_cases d <;> decide

theorem isDigit_digitChar {d : Nat} (h : d < 10) : (digitChar d).isDigit = true := by
  interval_cases d <;> decide

theorem digitChar_ne_Z {d : Nat} (h : d < 10) : digitChar d ≠ 'Z' := by
  interval_cases d <;> decide

theorem natChars_all_digits (n : Nat) : ∀ c ∈ natChars n, c.isDigit = true := by
  intro c hc
  obtain ⟨d, hd, rfl⟩ := List.mem_map.mp hc
  exact isDigit_digitChar (Nat.digits_lt_base (by norm_num) (List.mem_reverse.mp hd))

theorem natChars_ne_Z (n : Nat) : ∀ c ∈ natChars n, c ≠ 'Z' := by
  intro c hc
  obtain ⟨d, hd, rfl⟩ := List.mem_map.mp hc
  exact digitChar_ne_Z (Nat.digits_lt_base (by norm_num) (List.mem_reverse.mp hd))

theorem length_natChars_le {w n : Nat} (h : n < 10 ^ w) :
    (natChars n).length ≤ w := by
  rcases eq_or_ne n 0 with rfl | hn
  · simp [natChars]
  · have : (Nat.digits 10 n).length = Nat.log 10 n + 1 :=
      Nat.digits_len 10 n (by norm_num) hn
    have hlog : Nat.log 10 n < w := (Nat.lt_pow_iff_log_lt (by norm_num) hn).mp h
    simp only [natChars, List.length_map, List.length_reverse, this]
    omega

theorem foldl_digitChars (l : List Nat) (hl : ∀ d ∈ l, d < 10) : ∀ a : Nat,
    List.foldl (fun x c => x * 10 + charVal c) a (l.map digitChar)
      = a * 10 ^ l.length + Nat.ofDigits 10 l.reverse := by
  induction l with
  | nil => intro a; simp [Nat.ofDigits]
  | cons d t ih =>
    intro a
    have hd : d < 10 := hl d (List.mem_cons_self d t)
    have ht : ∀ x ∈ t, x < 10 := fun x hx => hl x (List.mem_cons_of_mem _ hx)
    simp only [List.map_cons, List.foldl_cons, ih ht, charVal_digitChar hd,
      List.reverse_cons, Nat.ofDigits_append, List.length_cons,
      List.length_reverse, Nat.ofDigits, Nat.cast_id]
    ring

theorem digitsToNat_natChars (n : Nat) : digitsToNat (natChars n) = n := by
  have h := foldl_digitChars ((Nat.digits 10 n).reverse)
    (fun d hd => Nat.digits_lt_base (by norm_num) (List.mem_reverse.mp hd)) 0
  simpa [digitsToNat, natChars, Nat.ofDigits_digits] using h

theorem foldl_zeros (k : Nat) :
    List.foldl (fun x c => x * 10 + charVal c) 0 (List.replicate k '0') = 0 := by
  induction k with
  | zero => rfl
  | succ m ih => simpa [List.replicate_succ, charVal] using ih

theorem digitsToNat_padNat (w n : Nat) : digitsToNat (padNat w n) = n := by
  simp only [digitsToNat, padNat, List.foldl_append, foldl_zeros]
  exact digitsToNat_natChars n

theorem length_padNat {w n : Nat} (h : n < 10 ^ w) : (padNat w n).length = w := by
  have := length_natChars_le h
  simp only [padNat, List.length_append, List.length_replicate]
  omega

theorem padNat_all_digits (w n : Nat) : ∀ c ∈ padNat w n, c.isDigit = true := by
  intro c hc
  rcases List.mem_append.mp hc with h | h
  · rw [List.eq_of_mem_replicate h]; decide
  · exact natChars_all_digits n c h

theorem padNat_ne_Z (w n : Nat) : ∀ c ∈ padNat w n, c ≠ 'Z' := by
  intro c hc
  rcases List.mem_append.mp hc with h | h
  · rw [List.eq_of_mem_replicate h]; decide
  · exact natChars_ne_Z n c h

theorem readDigits_exact {w : Nat} {l : List Char} (hlen : l.length = w)
    (hdig : ∀ c ∈ l, c.isDigit = true) (rest : List Char) :
    readDigits w (l ++ rest) = some (digitsToNat l, rest) := by
  subst hlen
  simp only [readDigits, List.take_left, List.drop_left, List.all_eq_true]
  rw [if_pos ⟨trivial, hdig⟩]

theorem readDigits_padNat {w n : Nat} (h : n < 10 ^ w) (rest : List Char) :
    readDigits w (padNat w n ++ rest) = some (n, rest) := by
  have := readDigits_exact (length_padNat h) (padNat_all_digits w n) rest
  rwa [digitsToNat_padNat] at this

theorem parseNatStr_natToString (n : Nat) : parseNatStr (natToString n) = some n := by
  rcases eq_or_ne n 0 with rfl | hn
  · decide
  · have hne : natChars n ≠ [] := by
      simp only [natChars, ne_eq, List.map_eq_nil_iff, List.reverse_eq_nil_iff]
      exact Nat.digits_ne_nil_iff_ne_zero.mpr hn
    have hdig : (natChars n).all Char.isDigit = true :=
      List.all_eq_true.mpr fun c hc => natChars_all_digits n c hc
    simp [parseNatStr, natToString, if_neg hn, List.isEmpty_iff, hne, hdig,
      digitsToNat_natChars]

/-! ## Lemmas: ISO-8601 round trip -/

theorem expectChar_cons (c : Char) (cs : List Char) :
    expectChar c (c :: cs) = some cs := by
  simp [expectChar]

theorem readDigits_bind {α : Type} {w n : Nat} (h : n < 10 ^ w)
    (rest : List Char) (f : Nat × List Char → Option α) :
    (readDigits w (padNat w n ++ rest)).bind f = f (n, rest) := by
  rw [readDigits_padNat h]
  rfl

theorem expectChar_bind {α : Type} (c : Char) (cs : List Char)
    (f : List Char → Option α) :
    (expectChar c (c :: cs)).bind f = f cs := by
  rw [expectChar_cons]
  rfl

theorem parseUS_dot (rest : List Char) : parseUS ('.' :: rest) = readDigits 6 rest := rfl

theorem parseUS_plus (rest : List Char) :
    parseUS ('+' :: rest) = some (0, '+' :: rest) := rfl

theorem checkTail_exact (y mo dy h mi sec us : Nat) :
    checkTail y mo dy h mi sec us ['+', '0', '0', ':', '0', '0']
      = if ValidDT ⟨y, mo, dy, h, mi, sec, us⟩
        then some ⟨y, mo, dy, h, mi, sec, us⟩ else none := by
  simp [checkTail, expectChar_cons]

theorem parseIsoChars_isoChars (d : DateTime) (h : ValidDT d) :
    parseIsoChars (isoChars d) = some d := by
  obtain ⟨h1, h2, h3, h4, h5, h6, h7, h8, h9, h10⟩ := h
  have hy : d.year < 10 ^ 4 := by omega
  have hmo : d.month < 10 ^ 2 := by omega
  have hdy : d.day < 10 ^ 2 := by
    have : daysInMonth d.year d.month ≤ 31 := by
      unfold daysInMonth
      split <;> try split
      all_goals omega
    omega
  have hh : d.hour < 10 ^ 2 := by omega
  have hmi : d.minute < 10 ^ 2 := by omega
  have hs : d.second < 10 ^ 2 := by omega
  have hvalid : ValidDT ⟨d.year, d.month, d.day, d.hour, d.minute, d.second,
      d.microsecond⟩ := ⟨h1, h2, h3, h4, h5, h6, h7, h8, h9, h10⟩
  rcases eq_or_ne d.microsecond 0 with hus | hus
  · simp only [parseIsoChars, isoChars, hus, if_true, List.nil_append,
      List.append_assoc, List.cons_append,
      readDigits_bind hy, readDigits_bind hmo, readDigits_bind hdy,
      readDigits_bind hh, readDigits_bind hmi, readDigits_bind hs,
      expectChar_bind, parseUS_plus, Option.some_bind, checkTail_exact]
    have hv0 : ValidDT ⟨d.year, d.month, d.day, d.hour, d.minute, d.second, 0⟩ := by
      rw [← hus]
      exact hvalid
    rw [if_pos hv0, ← hus]
  · have hus6 : d.microsecond < 10 ^ 6 := by omega
    simp only [parseIsoChars, isoChars, if_neg hus, List.cons_append,
      List.append_assoc,
      readDigits_bind hy, readDigits_bind hmo, readDigits_bind hdy,
      readDigits_bind hh, readDigits_bind hmi, readDigits_bind hs,
      readDigits_bind hus6,
      expectChar_bind, parseUS_dot, Option.some_bind, checkTail_exact]
    rw [if_pos hvalid]

theorem isoChars_ne_Z (d : DateTime) : ∀ c ∈ isoChars d, c ≠ 'Z' := by
  intro c hc
  by_cases hus : d.microsecond = 0
  · simp only [isoChars, hus, if_true, List.mem_append,
      List.mem_cons, List.nil_append, List.not_mem_nil, or_false] at hc
    repeat' rcases hc with hc | hc
    all_goals
      first
      | exact padNat_ne_Z _ _ c hc
      | decide
  · simp only [isoChars, if_neg hus, List.mem_append,
      List.mem_cons, List.nil_append, List.not_mem_nil, or_false] at hc
    repeat' rcases hc with hc | hc
    all_goals
      first
      | exact padNat_ne_Z _ _ c hc
      | decide

theorem replaceZ_of_not_mem {cs : List Char} (h : ∀ c ∈ cs, c ≠ 'Z') :
    replaceZ cs = cs := by
  induction cs with
  | nil => rfl
  | cons c t ih =>
    have hc : c ≠ 'Z' := h c (List.mem_cons_self c t)
    have ht := ih fun x hx => h x (List.mem_cons_of_mem _ hx)
    simp only [replaceZ] at ht ⊢
    simp [List.flatMap_cons, if_neg hc, ht]

theorem convertCreatedAt_isoformat (d : DateTime) (h : ValidDT d) :
    convertCreatedAt (.raw (isoformat d)) = .dt d := by
  have hdata : (isoformat d).data = isoChars d := rfl
  simp only [convertCreatedAt, hdata, replaceZ_of_not_mem (isoChars_ne_Z d),
    parseIsoChars_isoChars d h]

theorem loadExpense_storeExpense {e : Expense} {d : DateTime}
    (hdt : e.created_at = .dt d) (h : ValidDT d) :
    loadExpense (storeExpense e) = e := by
  cases e with
  | mk desc amt pid parts i ca =>
    cases hdt
    simp [loadExpense, storeExpense, convertCreatedAt_isoformat d h]

theorem loadUsers_saved (l : List (Nat × UserRec)) :
    loadUsers (l.map fun kv => (natToString kv.1, kv.2)) = some l := by
  induction l with
  | nil => rfl
  | cons kv t ih =>
    simp [loadUsers, parseNatStr_natToString, ih]


/-! ## Lemmas: dicts and the balances fold -/

theorem containsKey_iff {l : List (Nat × α)} {k : Nat} :
    containsKey l k = true ↔ k ∈ dictKeys l := by
  simp [containsKey, List.elem_iff]

theorem dictKeys_addToKey (bal : List (Nat × ℚ)) (k : Nat) (v : ℚ) :
    dictKeys (addToKey bal k v) = dictKeys bal := by
  induction bal with
  | nil => rfl
  | cons kv rest ih =>
    by_cases h : kv.1 = k
    · simp [addToKey, h, dictKeys]
    · simp only [addToKey] at *
      rw [if_neg h]
      simp [dictKeys] at ih ⊢
      exact ih

theorem dictKeys_debitParticipant (bal : List (Nat × ℚ)) (k : Nat) (sh : ℚ) :
    dictKeys (debitParticipant bal k sh) = dictKeys bal := by
  unfold debitParticipant
  split
  · exact dictKeys_addToKey bal k (-sh)
  · rfl

theorem dictKeys_debits (sh : ℚ) (ps : List Nat) : ∀ bal : List (Nat × ℚ),
    dictKeys (ps.foldl (fun b p => debitParticipant b p sh) bal) = dictKeys bal := by
  induction ps with
  | nil => intro bal; rfl
  | cons p t ih =>
    intro bal
    rw [List.foldl_cons, ih, dictKeys_debitParticipant]

theorem processExpense_keys {bal bal' : List (Nat × ℚ)} {e : Expense}
    (h : processExpense bal e = some bal') : dictKeys bal' = dictKeys bal := by
  unfold processExpense at h
  split at h
  · cases h; rfl
  · unfold creditPayer at h
    split at h
    · simp only [Option.map_some] at h
      cases h
      rw [dictKeys_debits, dictKeys_addToKey]
    · simp at h

theorem sum_addToKey {bal : List (Nat × ℚ)} {k : Nat} (v : ℚ)
    (h : k ∈ dictKeys bal) :
    ((addToKey bal k v).map Prod.snd).sum = (bal.map Prod.snd).sum + v := by
  induction bal with
  | nil => simp [dictKeys] at h
  | cons kv rest ih =>
    by_cases hk : kv.1 = k
    · simp only [addToKey, if_pos hk, List.map_cons, List.sum_cons]
      ring
    · have h' : k ∈ dictKeys rest := by
        simp only [dictKeys, List.map_cons, List.mem_cons] at h
        rcases h with h | h
        · exact absurd h.symm hk
        · simpa [dictKeys] using h
      simp only [addToKey, if_neg hk, List.map_cons, List.sum_cons, ih h']
      ring

theorem sum_debitParticipant {bal : List (Nat × ℚ)} {k : Nat} (sh : ℚ)
    (h : k ∈ dictKeys bal) :
    ((debitParticipant bal k sh).map Prod.snd).sum = (bal.map Prod.snd).sum - sh := by
  unfold debitParticipant
  rw [if_pos (containsKey_iff.mpr h), sum_addToKey (-sh) h]
  ring

theorem sum_debits (sh : ℚ) (ps : List Nat) : ∀ bal : List (Nat × ℚ),
    (∀ p ∈ ps, p ∈ dictKeys bal) →
    ((ps.foldl (fun b p => debitParticipant b p sh) bal).map Prod.snd).sum
      = (bal.map Prod.snd).sum - ps.length * sh := by
  induction ps with
  | nil => intro bal _; simp
  | cons p t ih =>
    intro bal h
    have hp : p ∈ dictKeys bal := h p (List.mem_cons_self p t)
    have hkeys : dictKeys (debitParticipant bal p sh) = dictKeys bal :=
      dictKeys_debitParticipant bal p sh
    rw [List.foldl_cons,
      ih _ (fun q hq => hkeys ▸ h q (List.mem_cons_of_mem _ hq)),
      sum_debitParticipant sh hp, List.length_cons]
    push_cast
    ring

theorem processExpense_sum {bal bal' : List (Nat × ℚ)} {e : Expense}
    (hp : ∀ p ∈ e.participants, p ∈ dictKeys bal)
    (h : processExpense bal e = some bal') :
    (bal'.map Prod.snd).sum = (bal.map Prod.snd).sum := by
  unfold processExpense at h
  split at h
  · cases h; rfl
  · rename_i hne
    unfold creditPayer at h
    split at h
    · rename_i hpay
      simp only [Option.map_some] at h
      cases h
      have hkeys : dictKeys (addToKey bal e.paid_by_user_id e.amount) = dictKeys bal :=
        dictKeys_addToKey ..
      rw [sum_debits _ _ _ (fun q hq => hkeys ▸ hp q hq),
        sum_addToKey e.amount (containsKey_iff.mp hpay)]
      have hlen : (e.participants.length : ℚ) ≠ 0 := by
        have h0 : e.participants.length ≠ 0 := by
          simpa [List.length_eq_zero] using hne
        exact_mod_cast h0
      field_simp
    · simp at h

theorem processExpense_total {bal : List (Nat × ℚ)} {e : Expense}
    (hpay : containsKey bal e.paid_by_user_id = true) :
    ∃ bal', processExpense bal e = some bal' := by
  unfold processExpense
  split
  · exact ⟨bal, rfl⟩
  · unfold creditPayer
    rw [if_pos hpay]
    exact ⟨_, rfl⟩

theorem dictGet_addToKey_ne {bal : List (Nat × ℚ)} {k uid : Nat} (v : ℚ)
    (h : k ≠ uid) : dictGet (addToKey bal k v) uid = dictGet bal uid := by
  induction bal with
  | nil => rfl
  | cons kv rest ih =>
    by_cases hk : kv.1 = k
    · have huid : kv.1 ≠ uid := hk ▸ h
      cases kv
      simp only [addToKey] at hk ⊢
      rw [if_pos hk]
      simp_all [dictGet]
    · cases kv
      simp only [addToKey] at hk ⊢
      rw [if_neg hk]
      simp only [dictGet]
      split
      · rfl
      · exact ih

theorem dictGet_debitParticipant_ne {bal : List (Nat × ℚ)} {k uid : Nat} (sh : ℚ)
    (h : k ≠ uid) : dictGet (debitParticipant bal k sh) uid = dictGet bal uid := by
  unfold debitParticipant
  split
  · exact dictGet_addToKey_ne (-sh) h
  · rfl

theorem dictGet_debits_ne (sh : ℚ) {uid : Nat} (ps : List Nat) (h : uid ∉ ps) :
    ∀ bal : List (Nat × ℚ),
    dictGet (ps.foldl (fun b p => debitParticipant b p sh) bal) uid = dictGet bal uid := by
  induction ps with
  | nil => intro bal; rfl
  | cons p t ih =>
    intro bal
    have hp : p ≠ uid := fun hpu => h (hpu ▸ List.mem_cons_self p t)
    have ht : uid ∉ t := fun htu => h (List.mem_cons_of_mem _ htu)
    rw [List.foldl_cons, ih ht, dictGet_debitParticipant_ne sh hp]

theorem processExpense_get_ne {bal bal' : List (Nat × ℚ)} {e : Expense} {uid : Nat}
    (hpay : e.paid_by_user_id ≠ uid) (hparts : uid ∉ e.participants)
    (h : processExpense bal e = some bal') :
    dictGet bal' uid = dictGet bal uid := by
  unfold processExpense at h
  split at h
  · cases h; rfl
  · unfold creditPayer at h
    split at h
    · simp only [Option.map_some] at h
      cases h
      rw [dictGet_debits_ne _ _ hparts, dictGet_addToKey_ne _ hpay]
    · simp at h


/-! ## Lemmas: the whole expense fold -/

theorem foldProcess_none (es : List Expense) :
    es.foldl (fun ob e => ob.bind fun b => processExpense b e) none = none := by
  induction es <;> simp [*]

theorem foldProcess_keys (es : List Expense) : ∀ bal bal' : List (Nat × ℚ),
    es.foldl (fun ob e => ob.bind fun b => processExpense b e) (some bal)
      = some bal' →
    dictKeys bal' = dictKeys bal := by
  induction es with
  | nil =>
    intro bal bal' h
    simp only [List.foldl_nil, Option.some_inj] at h
    rw [h]
  | cons e t ih =>
    intro bal bal' h
    rw [List.foldl_cons, Option.some_bind] at h
    cases hpe : processExpense bal e with
    | none => rw [hpe, foldProcess_none] at h; cases h
    | some bal1 =>
      rw [hpe] at h
      exact (ih bal1 bal' h).trans (processExpense_keys hpe)

theorem foldProcess_total (es : List Expense) : ∀ bal : List (Nat × ℚ),
    (∀ e ∈ es, e.paid_by_user_id ∈ dictKeys bal) →
    ∃ bal', es.foldl (fun ob e => ob.bind fun b => processExpense b e) (some bal)
      = some bal' := by
  induction es with
  | nil => intro bal _; exact ⟨bal, rfl⟩
  | cons e t ih =>
    intro bal h
    have hpay : containsKey bal e.paid_by_user_id = true :=
      containsKey_iff.mpr (h e (List.mem_cons_self e t))
    obtain ⟨bal1, h1⟩ := processExpense_total hpay
    have hkeys : dictKeys bal1 = dictKeys bal := processExpense_keys h1
    obtain ⟨bal', h2⟩ := ih bal1
      (fun e' he' => hkeys ▸ h e' (List.mem_cons_of_mem _ he'))
    refine ⟨bal', ?_⟩
    rw [List.foldl_cons, Option.some_bind, h1]
    exact h2

theorem foldProcess_sum (es : List Expense) : ∀ bal bal' : List (Nat × ℚ),
    (∀ e ∈ es, ∀ p ∈ e.participants, p ∈ dictKeys bal) →
    es.foldl (fun ob e => ob.bind fun b => processExpense b e) (some bal)
      = some bal' →
    (bal'.map Prod.snd).sum = (bal.map Prod.snd).sum := by
  induction es with
  | nil =>
    intro bal bal' _ h
    simp only [List.foldl_nil, Option.some_inj] at h
    rw [h]
  | cons e t ih =>
    intro bal bal' hv h
    rw [List.foldl_cons, Option.some_bind] at h
    cases hpe : processExpense bal e with
    | none => rw [hpe, foldProcess_none] at h; cases h
    | some bal1 =>
      rw [hpe] at h
      have hkeys : dictKeys bal1 = dictKeys bal := processExpense_keys hpe
      have hsum1 : (bal1.map Prod.snd).sum = (bal.map Prod.snd).sum :=
        processExpense_sum (hv e (List.mem_cons_self e t)) hpe
      have := ih bal1 bal'
        (fun e' he' p hp => hkeys ▸ hv e' (List.mem_cons_of_mem _ he') p hp) h
      rw [this, hsum1]

theorem foldProcess_get (es : List Expense) {uid : Nat} : ∀ bal bal' : List (Nat × ℚ),
    (∀ e ∈ es, e.paid_by_user_id ≠ uid ∧ uid ∉ e.participants) →
    es.foldl (fun ob e => ob.bind fun b => processExpense b e) (some bal)
      = some bal' →
    dictGet bal' uid = dictGet bal uid := by
  induction es with
  | nil =>
    intro bal bal' _ h
    simp only [List.foldl_nil, Option.some_inj] at h
    rw [h]
  | cons e t ih =>
    intro bal bal' hv h
    rw [List.foldl_cons, Option.some_bind] at h
    cases hpe : processExpense bal e with
    | none => rw [hpe, foldProcess_none] at h; cases h
    | some bal1 =>
      rw [hpe] at h
      obtain ⟨hpay, hparts⟩ := hv e (List.mem_cons_self e t)
      have h1 : dictGet bal1 uid = dictGet bal uid :=
        processExpense_get_ne hpay hparts hpe
      have h2 := ih bal1 bal' (fun e' he' => hv e' (List.mem_cons_of_mem _ he')) h
      rw [h2, h1]

/-! ## Lemmas: lookups and the response loops -/

theorem dictGet_some_of_mem_keys {l : List (Nat × α)} {k : Nat}
    (h : k ∈ dictKeys l) : ∃ v, dictGet l k = some v := by
  induction l with
  | nil => simp [dictKeys] at h
  | cons kv rest ih =>
    cases kv with
    | mk k' v' =>
      by_cases hk : k' = k
      · exact ⟨v', by simp [dictGet, hk]⟩
      · have hmem : k ∈ dictKeys rest := by
          simp only [dictKeys, List.map_cons, List.mem_cons] at h
          rcases h with h | h
          · exact absurd h.symm hk
          · exact h
        obtain ⟨v, hv⟩ := ih hmem
        exact ⟨v, by simp [dictGet, hk, hv]⟩

theorem mem_of_dictGet_some {l : List (Nat × α)} {k : Nat} {v : α}
    (h : dictGet l k = some v) : (k, v) ∈ l := by
  induction l with
  | nil => cases h
  | cons kv rest ih =>
    cases kv with
    | mk k' v' =>
      by_cases hk : k' = k
      · simp only [dictGet, if_pos hk, Option.some_inj] at h
        subst hk
        subst h
        exact List.mem_cons_self _ _
      · simp only [dictGet, if_neg hk] at h
        exact List.mem_cons_of_mem _ (ih h)

theorem dictGet_of_mem_nodup {l : List (Nat × α)} {k : Nat} {v : α}
    (hnd : (dictKeys l).Nodup) (h : (k, v) ∈ l) : dictGet l k = some v := by
  induction l with
  | nil => cases h
  | cons kv rest ih =>
    cases kv with
    | mk k' v' =>
      rw [List.mem_cons] at h
      simp only [dictKeys, List.map_cons, List.nodup_cons] at hnd
      rcases h with h | h
      · rw [Prod.mk.injEq] at h
        simp [dictGet, h.1.symm, h.2]
      · have hk : k' ≠ k := by
          intro hk
          subst hk
          exact hnd.1 (List.mem_map.mpr ⟨(k', v), h, rfl⟩)
        simp only [dictGet, if_neg hk]
        exact ih hnd.2 h

theorem dictKeys_init (users : List (Nat × UserRec)) :
    dictKeys (users.map fun u => (u.1, (0 : ℚ))) = dictKeys users := by
  simp [dictKeys, List.map_map]

theorem sum_init (users : List (Nat × UserRec)) :
    (((users.map fun u => (u.1, (0 : ℚ))).map Prod.snd)).sum = 0 := by
  induction users with
  | nil => rfl
  | cons kv t ih =>
    simp only [List.map_cons, List.sum_cons, ih]
    simp

theorem dictGet_init_zero {users : List (Nat × UserRec)} {uid : Nat}
    (h : uid ∈ dictKeys users) :
    dictGet (users.map fun u => (u.1, (0 : ℚ))) uid = some 0 := by
  induction users with
  | nil => simp [dictKeys] at h
  | cons kv rest ih =>
    by_cases hk : kv.1 = uid
    · simp [dictGet, hk]
    · have hmem : uid ∈ dictKeys rest := by
        simp only [dictKeys, List.map_cons, List.mem_cons] at h
        rcases h with h | h
        · exact absurd h.symm hk
        · exact h
      simp only [List.map_cons, dictGet, if_neg hk]
      exact ih hmem

theorem round2_zero : round2 0 = 0 := by
  norm_num [round2, roundHalfEven]

theorem filterMap_ids (users : List (Nat × UserRec)) : ∀ bal : List (Nat × ℚ),
    (∀ k ∈ dictKeys bal, k ∈ dictKeys users) →
    ((bal.filterMap fun kv => (dictGet users kv.1).map fun u =>
        ({ user_id := kv.1, name := u.name, balance := round2 kv.2 } : UserBalance)).map
      fun b => b.user_id) = dictKeys bal := by
  intro bal
  induction bal with
  | nil => intro _; rfl
  | cons kv rest ih =>
    intro h
    have hk : kv.1 ∈ dictKeys users := h kv.1 (by simp [dictKeys])
    obtain ⟨u, hu⟩ := dictGet_some_of_mem_keys hk
    have hsub : ∀ k ∈ dictKeys rest, k ∈ dictKeys users := by
      intro k hk'
      refine h k ?_
      simp only [dictKeys, List.map_cons, List.mem_cons]
      right
      exact hk'
    have hrest := ih hsub
    have hf : (fun kv : Nat × ℚ => (dictGet users kv.1).map fun u =>
        ({ user_id := kv.1, name := u.name, balance := round2 kv.2 } : UserBalance)) kv
        = some { user_id := kv.1, name := u.name, balance := round2 kv.2 } := by
      simp [hu]
    rw [List.filterMap_cons, hu, Option.map_some']
    dsimp only
    rw [List.map_cons, hrest]
    rfl

theorem respExpense_id {e r : Expense} (h : respExpense e = some r) :
    r.id = e.id ∧ r.description = e.description ∧ r.amount = e.amount ∧
      r.paid_by_user_id = e.paid_by_user_id ∧ r.participants = e.participants := by
  unfold respExpense at h
  cases hca : convertCreatedAt e.created_at with
  | raw s => rw [hca] at h; cases h
  | dt d =>
    rw [hca] at h
    dsimp only at h
    by_cases hc : 0 < e.amount ∧ 1 ≤ e.participants.length
    · rw [if_pos hc] at h
      cases h
      exact ⟨rfl, rfl, rfl, rfl, rfl⟩
    · rw [if_neg hc] at h
      cases h

theorem get_expenses_ids (es : List Expense) : ∀ out : List Expense,
    get_expenses es = some out →
    out.map Expense.id = es.map Expense.id := by
  induction es with
  | nil =>
    intro out h
    simp only [get_expenses, Option.some_inj] at h
    rw [← h]
  | cons e t ih =>
    intro out h
    unfold get_expenses at h
    cases hr : respExpense e with
    | none => rw [hr] at h; cases h
    | some r =>
      rw [hr] at h
      cases ht : get_expenses t with
      | none => rw [ht] at h; cases h
      | some tl => 
        rw [ht] at h
        simp only [Option.some_inj] at h
        rw [← h]
        simp only [List.map_cons, (respExpense_id hr).1, ih tl ht]


theorem find?_first_true {p : Nat} (f : Nat → Bool) (post : List Nat) :
    ∀ pre : List Nat, (∀ q ∈ pre, f q = false) → f p = true →
    (pre ++ p :: post).find? f = some p := by
  intro pre
  induction pre with
  | nil =>
    intro _ hp
    simp [List.find?_cons, hp]
  | cons a t ih =>
    intro hpre hp
    have ha : f a = false := hpre a (List.mem_cons_self a t)
    simp only [List.cons_append, List.find?_cons, ha]
    exact ih (fun q hq => hpre q (List.mem_cons_of_mem _ hq)) hp

/-! ## The claims -/

/-- Claim C1: the balance computation credits the payer the full expense
amount and debits each participant slot `amount / len(participants)`
without deduplicating repeated ids: for Alice(1), Bob(2) and the expense
{amount: 30, paid_by: 1, participants: [1, 1, 2]} the balances are
Alice = +10 and Bob = -10, while the deduplicated list [1, 2] would give
+15 and -15 instead. -/
theorem C1_duplicate_participant_doubling :
    get_balances dupState
      = some [⟨1, "Alice", 10⟩, ⟨2, "Bob", -10⟩] ∧
    get_balances dedupState
      = some [⟨1, "Alice", 15⟩, ⟨2, "Bob", -15⟩] := by
  constructor
  · norm_num +decide [get_balances, dupState, dupExpense, computeBalances,
      processExpense, creditPayer, debitParticipant, addToKey, containsKey,
      dictKeys, dictGet, round2, roundHalfEven, List.filterMap]
    norm_num [Int.fract]
  · norm_num +decide [get_balances, dedupState, dedupExpense, computeBalances,
      processExpense, creditPayer, debitParticipant, addToKey, containsKey,
      dictKeys, dictGet, round2, roundHalfEven, List.filterMap]
    norm_num [Int.fract]

/-- Claim C2: after any sequence of validly recorded expenses (payer and all
participants registered, positive amount, non-empty participant list) the
pre-rounding balances sum to exactly zero. -/
theorem C2_conservation (s : LedgerState)
    (hv : ∀ e ∈ s.db_expenses,
      e.paid_by_user_id ∈ dictKeys s.db_users ∧
      (∀ p ∈ e.participants, p ∈ dictKeys s.db_users) ∧
      e.participants ≠ [] ∧ 0 < e.amount) :
    ∃ bal, computeBalances s = some bal ∧ (bal.map Prod.snd).sum = 0 := by
  have hkeys := dictKeys_init s.db_users
  obtain ⟨bal, hbal⟩ := foldProcess_total s.db_expenses
    (s.db_users.map fun u => (u.1, (0 : ℚ)))
    (fun e he => hkeys ▸ (hv e he).1)
  refine ⟨bal, hbal, ?_⟩
  have hsum := foldProcess_sum s.db_expenses
    (s.db_users.map fun u => (u.1, (0 : ℚ))) bal
    (fun e he p hp => hkeys ▸ (hv e he).2.1 p hp) hbal
  rw [hsum, sum_init]

/-- Witness for C2 on the concrete duplicated-participant ledger. -/
theorem C2_conservation_witness :
    ∃ bal, computeBalances dupState = some bal ∧ (bal.map Prod.snd).sum = 0 := by
  refine C2_conservation dupState ?_
  intro e he
  have he' : e = dupExpense := by
    simpa [dupState] using he
  subst he'
  refine ⟨by decide, by decide, by decide, by norm_num [dupExpense]⟩

/-- Claim C3 counterexample: registering a user with an empty (but present)
name succeeds — the pydantic `name: str` field carries no emptiness
constraint, so no ValidationError is raised; the user is stored with the
empty name. -/
theorem C3_empty_name_counterexample :
    postUser (some "") initialState = (Except.ok ⟨1, ""⟩, c3SuccessState) := rfl

/-- Claim C3 amended: registering with a missing name fails with
ValidationError and changes nothing; registering with any present name —
the empty string included — assigns the current `next_user_id`, increments
the counter, stores the user and returns it. -/
theorem C3_amended_registration (s : LedgerState) :
    postUser none s = (Except.error ApiError.validationError, s) ∧
    ∀ name, postUser (some name) s =
      (Except.ok ⟨s.next_user_id, name⟩,
       { s with db_users := dictInsert s.db_users s.next_user_id
                  ⟨s.next_user_id, name⟩,
                next_user_id := s.next_user_id + 1 }) :=
  ⟨rfl, fun _ => rfl⟩

/-- Witness for the amended C3 at a concrete registration. -/
theorem C3_amended_registration_witness :
    postUser (some "Alice") initialState
      = (Except.ok ⟨1, "Alice"⟩,
         { db_users := [(1, ⟨1, "Alice"⟩)], db_expenses := [],
           next_user_id := 2, next_expense_id := 1 }) := by
  have h := (C3_amended_registration initialState).2 "Alice"
  simpa [initialState, dictInsert] using h

/-- Claim C4: recording an expense whose `paid_by_user_id` is not registered
fails with NotFoundError naming the payer and leaves the state unchanged —
the expense id counter is not advanced and nothing is appended; this holds
for the handler and, for requests passing pydantic validation, for the whole
endpoint. -/
theorem C4_unknown_payer (e : ExpenseCreate) (now : DateTime) (s : LedgerState)
    (h : containsKey s.db_users e.paid_by_user_id = false) :
    create_expense e now s
      = (Except.error (ApiError.notFound e.paid_by_user_id), s) ∧
    (validateExpenseCreate e = Except.ok e →
      postExpense e now s
        = (Except.error (ApiError.notFound e.paid_by_user_id), s)) := by
  have h1 : create_expense e now s
      = (Except.error (ApiError.notFound e.paid_by_user_id), s) := by
    unfold create_expense
    rw [if_pos]
    simp [h]
  refine ⟨h1, fun hv => ?_⟩
  unfold postExpense
  rw [hv]
  exact h1

/-- Witness for C4: payer id 99 is unknown in the two-user ledger. -/
theorem C4_unknown_payer_witness :
    create_expense ⟨"X", 5, 99, [1]⟩ someDT dupState
      = (Except.error (ApiError.notFound 99), dupState) :=
  (C4_unknown_payer ⟨"X", 5, 99, [1]⟩ someDT dupState (by decide)).1

/-- Claim C5: a request with `amount ≤ 0` is rejected by pydantic validation
with ValidationError before the handler runs, so the state is untouched. -/
theorem C5_nonpositive_amount (e : ExpenseCreate) (now : DateTime)
    (s : LedgerState) (h : e.amount ≤ 0) :
    postExpense e now s = (Except.error ApiError.validationError, s) := by
  have hc : ¬(0 < e.amount ∧ 1 ≤ e.participants.length) := by
    rintro ⟨h1, -⟩
    exact absurd h1 (not_lt.mpr h)
  simp [postExpense, validateExpenseCreate, hc]

/-- Witness for C5 at amount zero. -/
theorem C5_nonpositive_amount_witness :
    postExpense ⟨"X", 0, 1, [1]⟩ someDT dupState
      = (Except.error ApiError.validationError, dupState) :=
  C5_nonpositive_amount ⟨"X", 0, 1, [1]⟩ someDT dupState (le_refl 0)

/-- Claim C6: participant existence is checked in list order after the payer
check, and the first missing id is the one reported in the NotFoundError. -/
theorem C6_first_missing_participant (e : ExpenseCreate) (now : DateTime)
    (s : LedgerState) (pre post : List Nat) (p : Nat)
    (hsplit : e.participants = pre ++ p :: post)
    (hpre : ∀ q ∈ pre, containsKey s.db_users q = true)
    (hp : containsKey s.db_users p = false)
    (hpay : containsKey s.db_users e.paid_by_user_id = true) :
    create_expense e now s = (Except.error (ApiError.notFound p), s) := by
  have hfind : e.participants.find? (fun q => ! containsKey s.db_users q)
      = some p := by
    rw [hsplit]
    refine find?_first_true _ post pre (fun q hq => ?_) (by rw [hp]; rfl)
    rw [hpre q hq]
    rfl
  unfold create_expense
  rw [if_neg (by rw [hpay]; simp), hfind]

/-- Witness for C6: participants [1, 99, 98]; 99 is the first missing id. -/
theorem C6_first_missing_participant_witness :
    create_expense ⟨"X", 5, 1, [1, 99, 98]⟩ someDT dupState
      = (Except.error (ApiError.notFound 99), dupState) :=
  C6_first_missing_participant ⟨"X", 5, 1, [1, 99, 98]⟩ someDT dupState
    [1] [98] 99 rfl (by decide) (by decide) (by decide)

/-- Claim C7: with no users the balance endpoint returns the empty list
without error, and every registered user appears in the output — with
balance exactly 0 when they occur in no expense as payer or participant. -/
theorem C7_zero_activity_users (s : LedgerState) :
    (s.db_users = [] → get_balances s = some []) ∧
    (∀ out uid u, (dictKeys s.db_users).Nodup →
      get_balances s = some out → (uid, u) ∈ s.db_users →
      (∃ b, (⟨uid, u.name, b⟩ : UserBalance) ∈ out) ∧
      ((∀ e ∈ s.db_expenses, e.paid_by_user_id ≠ uid ∧ uid ∉ e.participants) →
        (⟨uid, u.name, 0⟩ : UserBalance) ∈ out)) := by
  constructor
  · intro h
    simp [get_balances, h]
  · intro out uid u hnd hgb hmem
    have hne : s.db_users.isEmpty = false := by
      cases husers : s.db_users with
      | nil => rw [husers] at hmem; cases hmem
      | cons a t => rfl
    unfold get_balances at hgb
    rw [hne] at hgb
    simp only [Bool.false_eq_true, if_false] at hgb
    obtain ⟨bal, hbal, hout⟩ := Option.map_eq_some'.mp hgb
    have huid_keys : uid ∈ dictKeys s.db_users :=
      List.mem_map.mpr ⟨(uid, u), hmem, rfl⟩
    have hfold : s.db_expenses.foldl
        (fun ob e => ob.bind fun b => processExpense b e)
        (some (s.db_users.map fun u => (u.1, (0 : ℚ)))) = some bal := hbal
    have hgu : dictGet s.db_users uid = some u := dictGet_of_mem_nodup hnd hmem
    have hkeys : dictKeys bal = dictKeys s.db_users := by
      rw [foldProcess_keys s.db_expenses _ bal hfold, dictKeys_init]
    constructor
    · obtain ⟨v, hv⟩ := dictGet_some_of_mem_keys (l := bal) (hkeys ▸ huid_keys)
      refine ⟨round2 v, ?_⟩
      rw [← hout]
      refine List.mem_filterMap.mpr ⟨(uid, v), mem_of_dictGet_some hv, ?_⟩
      simp [hgu]
    · intro hnoact
      have hget0 : dictGet bal uid = some 0 := by
        rw [foldProcess_get s.db_expenses _ bal hnoact hfold]
        exact dictGet_init_zero huid_keys
      have hmem_bal : (uid, (0 : ℚ)) ∈ bal := mem_of_dictGet_some hget0
      rw [← hout]
      refine List.mem_filterMap.mpr ⟨(uid, 0), hmem_bal, ?_⟩
      simp [hgu, round2_zero]

/-- Witness for C7: Bob(2) occurs in no expense of `bobIdleState` and shows
up with balance 0. -/
theorem C7_zero_activity_users_witness :
    ∃ out, get_balances bobIdleState = some out ∧
      (⟨2, "Bob", 0⟩ : UserBalance) ∈ out := by
  have hgb : get_balances bobIdleState
      = some [⟨1, "Alice", 0⟩, ⟨2, "Bob", 0⟩] := by
    norm_num +decide [get_balances, bobIdleState, aliceOnlyExpense,
      computeBalances, processExpense, creditPayer, debitParticipant,
      addToKey, containsKey, dictKeys, dictGet, round2, roundHalfEven,
      List.filterMap]
  refine ⟨_, hgb, ?_⟩
  exact ((C7_zero_activity_users bobIdleState).2 _ 2 ⟨2, "Bob"⟩ (by decide)
    hgb (by decide)).2 (by decide)

/-- Claim C8: saving the ledger state and loading it back yields the same
state in all fields: user ids survive the round trip through textual keys,
`created_at` survives the round trip through ISO-8601 text (for states whose
timestamps are genuine datetimes, as all in-memory-created ones are), and
both id counters are preserved. -/
theorem C8_save_load_roundtrip (s : LedgerState)
    (h : ∀ e ∈ s.db_expenses, ∃ d, e.created_at = TimeVal.dt d ∧ ValidDT d) :
    load_data (save_data s) = some s := by
  have hexp : (s.db_expenses.map storeExpense).map loadExpense
      = s.db_expenses := by
    rw [List.map_map]
    conv_rhs => rw [← List.map_id s.db_expenses]
    refine List.map_congr_left ?_
    intro e he
    obtain ⟨d, hdt, hv⟩ := h e he
    exact loadExpense_storeExpense hdt hv
  unfold load_data save_data
  rw [loadUsers_saved]
  simp only [Option.map_some']
  rw [hexp]

/-- Witness for C8 on a populated ledger with a parsed timestamp. -/
theorem C8_save_load_roundtrip_witness :
    load_data (save_data rtState) = some rtState := by
  refine C8_save_load_roundtrip rtState ?_
  intro e he
  have he' : e = rtExpense := by
    simpa [rtState] using he
  subst he'
  exact ⟨⟨2025, 10, 12, 3, 4, 5, 6⟩, rfl, by decide⟩

/-- Claim C9: the balances output is ordered by the user dict's insertion
order, and listing expenses preserves the ledger's original insertion
order. -/
theorem C9_output_order (s : LedgerState) :
    (∀ out, get_balances s = some out →
      out.map (fun b => b.user_id) = dictKeys s.db_users) ∧
    (∀ out, get_expenses s.db_expenses = some out →
      out.map Expense.id = s.db_expenses.map Expense.id) := by
  constructor
  · intro out h
    by_cases hemp : s.db_users.isEmpty
    · have husers : s.db_users = [] := List.isEmpty_iff.mp hemp
      unfold get_balances at h
      rw [if_pos hemp] at h
      simp only [Option.some_inj] at h
      rw [← h, husers]
      rfl
    · unfold get_balances at h
      rw [if_neg hemp] at h
      obtain ⟨bal, hbal, hout⟩ := Option.map_eq_some'.mp h
      have hkeys : dictKeys bal = dictKeys s.db_users := by
        rw [foldProcess_keys s.db_expenses _ bal hbal, dictKeys_init]
      rw [← hout, filterMap_ids s.db_users bal (fun k hk => hkeys ▸ hk), hkeys]
  · exact get_expenses_ids s.db_expenses

/-- Witness for C9 on concrete ledgers. -/
theorem C9_output_order_witness :
    (∃ out, get_balances bobIdleState = some out ∧
      out.map (fun b => b.user_id) = dictKeys bobIdleState.db_users) ∧
    (∃ out, get_expenses rtState.db_expenses = some out ∧
      out.map Expense.id = rtState.db_expenses.map Expense.id) := by
  constructor
  · have hgb : get_balances bobIdleState
        = some [⟨1, "Alice", 0⟩, ⟨2, "Bob", 0⟩] := by
      norm_num +decide [get_balances, bobIdleState, aliceOnlyExpense,
        computeBalances, processExpense, creditPayer, debitParticipant,
        addToKey, containsKey, dictKeys, dictGet, round2, roundHalfEven,
        List.filterMap]
    exact ⟨_, hgb, (C9_output_order bobIdleState).1 _ hgb⟩
  · have hge : get_expenses rtState.db_expenses = some [rtExpense] := by
      norm_num [get_expenses, rtState, rtExpense, respExpense,
        convertCreatedAt]
    exact ⟨_, hge, (C9_output_order rtState).2 _ hge⟩

/-- Claim C10: the balance computation is total whenever every expense's
payer is a registered user; an expense with an empty participant list is
skipped outright (so the share division never divides by zero), a
participant id absent from the balances dict is silently skipped, and the
unguarded payer credit is precisely the step that fails (KeyError, i.e.
`none`) when the payer is missing and the expense is not skipped. -/
theorem C10_totality (s : LedgerState) :
    ((∀ e ∈ s.db_expenses, containsKey s.db_users e.paid_by_user_id = true) →
      (get_balances s).isSome = true) ∧
    (∀ (bal : List (Nat × ℚ)) (e : Expense), e.participants = [] →
      processExpense bal e = some bal) ∧
    (∀ (bal : List (Nat × ℚ)) (p : Nat) (sh : ℚ),
      containsKey bal p = false → debitParticipant bal p sh = bal) ∧
    (∀ (bal : List (Nat × ℚ)) (e : Expense), e.participants ≠ [] →
      containsKey bal e.paid_by_user_id = false →
      processExpense bal e = none) := by
  refine ⟨?_, ?_, ?_, ?_⟩
  · intro h
    by_cases hemp : s.db_users.isEmpty
    · simp [get_balances, hemp]
    · obtain ⟨bal, hbal⟩ := foldProcess_total s.db_expenses
        (s.db_users.map fun u => (u.1, (0 : ℚ)))
        (fun e he => (dictKeys_init s.db_users) ▸
          containsKey_iff.mp (h e he))
      unfold get_balances computeBalances
      rw [if_neg hemp, hbal]
      rfl
  · intro bal e h
    simp [processExpense, h]
  · intro bal p sh h
    simp [debitParticipant, h]
  · intro bal e hne hpay
    simp [processExpense, hne, creditPayer, hpay]

/-- Witness for C10: the duplicated-participant ledger has a registered
payer, so the computation succeeds. -/
theorem C10_totality_witness : (get_balances dupState).isSome = true :=
  (C10_totality dupState).1 (by decide)

end Splitwise
